import Mathlib

/-!
# M5Dial PDM recorder: WAV framing, file naming and the recording session

A shallow embedding of `src/main.cpp`.

* Machine integers are natural numbers (or integers for the signed ones) reduced
  explicitly modulo `2 ^ width` wherever the C++ code stores into a fixed-width
  object.  `int` and `size_t` are 32 bits wide on the target (ESP32-S3).
  Signed arithmetic that leaves the range of `int` is taken to wrap in two's
  complement, which is what the target does.
* The collaborators that are not code of this repository (`SPIFFS`, `File`,
  `M5.Mic`, `millis`) are modelled by their effect on an explicit state, and
  every outcome the environment chooses (does the open succeed, how many bytes
  did a write take, which samples did the microphone deliver, what time is it)
  is an argument of the operation that consumes it.
* Rendering on `M5.Display` has no influence on any modelled variable and is
  left out; the level computed for the meter is kept as an event.
-/

namespace M5DialPDM

/-! ## Compile-time constants (main.cpp, lines 5-8) -/

def SAMPLE_RATE : Nat := 16000
def CHANNELS : Nat := 1
def BUFFER_SIZE : Nat := 1024
def BIT_DEPTH : Nat := 16

/-- Number of values of a 16-bit object. -/
def two16 : Nat := 65536

/-- Number of values of a 32-bit object. -/
def two32 : Nat := 4294967296

/-! ## The WAV header (main.cpp, lines 11-30) -/

/-- A member of type `char[4]`. -/
structure Char4 where
  c0 : Char
  c1 : Char
  c2 : Char
  c3 : Char
  deriving DecidableEq

/-- The bytes of a `char[4]` in memory. -/
def Char4.bytes (c : Char4) : List Nat := [c.c0.toNat, c.c1.toNat, c.c2.toNat, c.c3.toNat]

/-- The struct `WAVHeader`: the members in declaration order, the default member
initialisers as field defaults.  An unsigned integer member is a `Nat`. -/
structure WAVHeader where
  riffHeader : Char4 := ⟨'R', 'I', 'F', 'F'⟩
  wavSize : Nat
  waveHeader : Char4 := ⟨'W', 'A', 'V', 'E'⟩
  fmtHeader : Char4 := ⟨'f', 'm', 't', Char.ofNat 32⟩
  fmtChunkSize : Nat := 16
  audioFormat : Nat := 1
  numChannels : Nat
  sampleRate : Nat
  byteRate : Nat
  blockAlign : Nat
  bitsPerSample : Nat
  dataHeader : Char4 := ⟨'d', 'a', 't', 'a'⟩
  dataSize : Nat
  deriving DecidableEq

/-- The two bytes of a `uint16_t` in memory (little-endian target). -/
def le16 (n : Nat) : List Nat := [n % 256, n / 256 % 256]

/-- The four bytes of a `uint32_t` in memory (little-endian target). -/
def le32 (n : Nat) : List Nat :=
  [n % 256, n / 256 % 256, n / 65536 % 256, n / 16777216 % 256]

/-- Reads a little-endian unsigned integer back from its bytes. -/
def fromLE : List Nat → Nat
  | [] => 0
  | b :: bs => b + 256 * fromLE bs

/-- A member of a struct as the compiler lays it out: its alignment and its bytes. -/
structure Member where
  align : Nat
  bytes : List Nat

/-- Fills `acc` with padding bytes up to the next multiple of `align`. -/
def padTo (align : Nat) (acc : List Nat) : List Nat :=
  acc ++ List.replicate ((align - acc.length % align) % align) 0

/-- The object representation of a struct: each member at the next offset that
is a multiple of its alignment, the whole padded to the struct's alignment. -/
def objectBytes (align : Nat) (ms : List Member) : List Nat :=
  padTo align (ms.foldl (fun acc m => padTo m.align acc ++ m.bytes) [])

/-- The members of a `WAVHeader` in declaration order: `char` arrays have
alignment 1, `uint16_t` alignment 2, `uint32_t` alignment 4. -/
def headerMembers (h : WAVHeader) : List Member :=
  [⟨1, h.riffHeader.bytes⟩, ⟨4, le32 h.wavSize⟩, ⟨1, h.waveHeader.bytes⟩,
   ⟨1, h.fmtHeader.bytes⟩, ⟨4, le32 h.fmtChunkSize⟩, ⟨2, le16 h.audioFormat⟩,
   ⟨2, le16 h.numChannels⟩, ⟨4, le32 h.sampleRate⟩, ⟨4, le32 h.byteRate⟩,
   ⟨2, le16 h.blockAlign⟩, ⟨2, le16 h.bitsPerSample⟩, ⟨1, h.dataHeader.bytes⟩,
   ⟨4, le32 h.dataSize⟩]

/-- The bytes `(uint8_t*)&wavHeader` over `sizeof(WAVHeader)` that the two
`wavFile.write` calls of lines 73 and 102 are given. -/
def headerBytes (h : WAVHeader) : List Nat := objectBytes 4 (headerMembers h)

/-- The bytes of `l` at offsets `off .. off + n - 1`. -/
def slice (off n : Nat) (l : List Nat) : List Nat := (l.drop off).take n

/-- The body of `initWAVHeader` (lines 43-51) with the three format macros as
arguments.  Each assignment converts to the width of the member it stores into;
`byteRate` and `blockAlign` read the `bitsPerSample` member just stored. -/
def initWAVHeaderWith (sampleRate channels bitDepth : Nat) (h : WAVHeader) : WAVHeader :=
  let h1 := { h with numChannels := channels % two16 }
  let h2 := { h1 with sampleRate := sampleRate % two32 }
  let h3 := { h2 with bitsPerSample := bitDepth % two16 }
  let h4 := { h3 with byteRate := (sampleRate * channels * (h3.bitsPerSample / 8)) % two32 }
  let h5 := { h4 with blockAlign := (channels * (h4.bitsPerSample / 8)) % two16 }
  let h6 := { h5 with dataSize := 0 }
  { h6 with wavSize := 36 }

/-- The function `initWAVHeader` as compiled: the macros at their defined values. -/
def initWAVHeader (h : WAVHeader) : WAVHeader :=
  initWAVHeaderWith SAMPLE_RATE CHANNELS BIT_DEPTH h

/-- The header update of `stopRecording` (lines 98-99): `dataSize` takes the
counter, `wavSize` takes `36 + bytesWritten` computed in `uint32_t`. -/
def finalizeHeader (h : WAVHeader) (bytesWritten : Nat) : WAVHeader :=
  let h1 := { h with dataSize := bytesWritten % two32 }
  { h1 with wavSize := (36 + bytesWritten) % two32 }

/-! ## File names (main.cpp, line 56) -/

/-- Conversion of a mathematical integer to `int`: two's complement on 32 bits. -/
def wrapInt32 (x : Int) : Int := (x + 2147483648) % 4294967296 - 2147483648

/-- Zero padding on the left up to a field width. -/
def padZeros (width : Nat) (cs : List Char) : List Char :=
  List.replicate (width - cs.length) '0' ++ cs

/-- The conversion `%03d` of `sprintf`: decimal digits, a minus sign for a
negative argument, zeros after the sign up to a total width of 3, and as many
digits as the value needs beyond that. -/
def fmt03d (n : Int) : List Char :=
  if n < 0 then '-' :: padZeros 2 (Nat.toDigits 10 n.natAbs)
  else padZeros 3 (Nat.toDigits 10 n.toNat)

/-- The string `sprintf(wavFileName, "/recording_%03d.wav", n)` leaves in
`wavFileName`.  At most 26 characters and the terminator, so it fits `char[32]`. -/
def fileName (n : Int) : String :=
  String.mk ("/recording_".data ++ fmt03d n ++ ".wav".data)

/-! ## The recorder state and its collaborators -/

/-- The calls made on the collaborators, in order. -/
inductive Event where
  | fsExists (path : String) (result : Bool)
  | fsOpen (path : String) (ok : Bool)
  | fileWrite (bytes : List Nat) (written : Nat)
  | fileSeek (pos : Nat) (ok : Bool)
  | fileClose
  | micBegin
  | micEnd
  | micRecord (len : Nat)
  | level (maxLevel : Int)
  deriving DecidableEq

/-- A `File` object that refers to an open file: which one, and the position
of the next write. -/
structure FileHandle where
  path : String
  pos : Nat
  deriving DecidableEq

/-- The global variables of main.cpp (lines 33-40), the static local
`lastUpdate` of `processAudio`, the contents of the SPIFFS file system, and the
trace of collaborator calls. -/
structure State where
  wavFile : Option FileHandle
  wavFileName : String
  fileCounter : Int
  recordStartTime : Nat
  isRecording : Bool
  wavHeader : WAVHeader
  bytesWritten : Nat
  audioBuffer : List Int
  lastUpdate : Nat
  disk : String → Option (List Nat)
  trace : List Event

/-- The state after static initialisation, over a given file system. -/
def initialState (disk : String → Option (List Nat)) : State :=
  { wavFile := none, wavFileName := "", fileCounter := 0, recordStartTime := 0,
    isRecording := false,
    wavHeader := { wavSize := 0, numChannels := 0, sampleRate := 0, byteRate := 0,
                   blockAlign := 0, bitsPerSample := 0, dataSize := 0 },
    bytesWritten := 0, audioBuffer := List.replicate BUFFER_SIZE 0, lastUpdate := 0,
    disk := disk, trace := [] }

/-- The call `SPIFFS.exists(path)`. -/
def spiffsExists (s : State) (path : String) : Bool := (s.disk path).isSome

/-- The call `wavFile.write(bytes, bytes.length)` when the file system takes
`written` of the bytes (all of them when `written` is at least their number).
The bytes taken overwrite the file from the current position on and extend it
where it ends; a `File` that is not open takes nothing. -/
def wavFile_write (bytes : List Nat) (written : Nat) (s : State) : State :=
  match s.wavFile with
  | none => { s with trace := s.trace ++ [Event.fileWrite bytes 0] }
  | some f =>
    let b := bytes.take written
    let old := (s.disk f.path).getD []
    { s with
      disk := Function.update s.disk f.path
        (some (old.take f.pos ++ b ++ old.drop (f.pos + b.length)))
      wavFile := some { f with pos := f.pos + b.length }
      trace := s.trace ++ [Event.fileWrite bytes b.length] }

/-- The call `wavFile.seek(pos)`, which succeeds or not as `ok` says. -/
def wavFile_seek (pos : Nat) (ok : Bool) (s : State) : State :=
  match s.wavFile with
  | none => { s with trace := s.trace ++ [Event.fileSeek pos false] }
  | some f =>
    { s with
      wavFile := some (if ok then { f with pos := pos } else f)
      trace := s.trace ++ [Event.fileSeek pos ok] }

/-- The call `wavFile.close()`. -/
def wavFile_close (s : State) : State :=
  { s with wavFile := none, trace := s.trace ++ [Event.fileClose] }

/-- The function `getNextFileName` (lines 54-58).  One unit of fuel per
iteration of the `do ... while` loop; `none` when the fuel runs out. -/
def getNextFileName : Nat → State → Option State
  | 0, _ => none
  | fuel + 1, s =>
    let name := fileName s.fileCounter
    let s1 := { s with
      wavFileName := name
      fileCounter := wrapInt32 (s.fileCounter + 1)
      trace := s.trace ++ [Event.fsExists name (spiffsExists s name)] }
    if spiffsExists s name then getNextFileName fuel s1 else some s1

/-- The function `startRecording` (lines 61-88).  `openOk` says whether
`SPIFFS.open` succeeds, `written` how many bytes the header write takes, `now`
is the reading of `millis()`.  Opening with `FILE_WRITE` creates the file empty. -/
def startRecording (fuel : Nat) (openOk : Bool) (written now : Nat) (s : State) :
    Option State :=
  match getNextFileName fuel s with
  | none => none
  | some s0 =>
    if openOk then
      let s1 := { s0 with
        wavFile := some { path := s0.wavFileName, pos := 0 }
        disk := Function.update s0.disk s0.wavFileName (some [])
        trace := s0.trace ++ [Event.fsOpen s0.wavFileName true] }
      let s2 := { s1 with wavHeader := initWAVHeader s1.wavHeader }
      let s3 := wavFile_write (headerBytes s2.wavHeader) written s2
      let s4 := { s3 with bytesWritten := 0 }
      let s5 := { s4 with trace := s4.trace ++ [Event.micBegin] }
      some { s5 with isRecording := true, recordStartTime := now % two32 }
    else
      some { s0 with
        wavFile := none
        trace := s0.trace ++ [Event.fsOpen s0.wavFileName false] }

/-- The function `stopRecording` (lines 91-112).  `seekOk` says whether the
seek succeeds, `written` how many bytes the header write takes. -/
def stopRecording (seekOk : Bool) (written : Nat) (s : State) : State :=
  if s.isRecording then
    let s1 := { s with trace := s.trace ++ [Event.micEnd] }
    let s2 := { s1 with isRecording := false }
    let s3 := { s2 with wavHeader := finalizeHeader s2.wavHeader s2.bytesWritten }
    let s4 := wavFile_seek 0 seekOk s3
    let s5 := wavFile_write (headerBytes s4.wavHeader) written s4
    wavFile_close s5
  else s

/-- Conversion of a mathematical integer to `int16_t`. -/
def toInt16 (x : Int) : Int := (x + 32768) % 65536 - 32768

/-- The two bytes of an `int16_t` sample in memory. -/
def sampleBytes (x : Int) : List Nat := le16 (x % 65536).toNat

/-- The bytes of a run of samples, as `(uint8_t*)audioBuffer` shows them. -/
def samplesBytes (xs : List Int) : List Nat := xs.flatMap sampleBytes

/-- One iteration of the metering loop (lines 140-141): `abs` works on `int`,
its result is stored in the `int16_t absValue`. -/
def meterStep (maxLevel : Int) (sample : Int) : Int :=
  let absValue := toInt16 |sample|
  if absValue > maxLevel then absValue else maxLevel

/-- The metering loop of `processAudio` (lines 138-142) over the first `len`
samples of the buffer: the final value of `maxLevel`. -/
def meterLevel (len : Nat) (audioBuffer : List Int) : Int :=
  (audioBuffer.take len).foldl meterStep 0

/-- The function `processAudio` (lines 115-148).  `samples` are the samples
`M5.Mic.record` stored at the front of `audioBuffer`, their number is the value
it returned (`len`); `written` is how many bytes the write takes; `now` is the
reading of `millis()`. -/
def processAudio (samples : List Int) (written now : Nat) (s : State) : State :=
  if !s.isRecording then s
  else
    let len := samples.length % two32
    let s1 := { s with
      audioBuffer := samples ++ s.audioBuffer.drop samples.length
      trace := s.trace ++ [Event.micRecord len] }
    if len > 0 then
      let bytesPerSample := 2
      let size := (len * bytesPerSample) % two32
      let s2 := wavFile_write ((samplesBytes s1.audioBuffer).take size) written s1
      let s3 := { s2 with bytesWritten := (s2.bytesWritten + size) % two32 }
      if (now % two32 + two32 - s3.lastUpdate) % two32 > 100 then
        { s3 with
          lastUpdate := now % two32
          trace := s3.trace ++ [Event.level (meterLevel len s3.audioBuffer)] }
      else s3
    else s1

/-! ## Runs -/

/-- One poll of the capture loop: the samples delivered, how many bytes the
payload write takes, and the clock. -/
structure Poll where
  samples : List Int
  written : Nat
  now : Nat

/-- The calls of `processAudio`, one per poll, in order. -/
def processAll (polls : List Poll) (s : State) : State :=
  polls.foldl (fun st p => processAudio p.samples p.written p.now st) s

/-- A whole recording: `startRecording`, `processAudio` once per poll, then
`stopRecording`, with the outcomes the environment chooses for each. -/
def recordSession (fuel : Nat) (openOk : Bool) (hdrWritten now : Nat) (polls : List Poll)
    (seekOk : Bool) (finalWritten : Nat) (s : State) : Option State :=
  match startRecording fuel openOk hdrWritten now s with
  | none => none
  | some s1 => some (stopRecording seekOk finalWritten (processAll polls s1))

/-- The poll that delivers `samples` and whose write is taken in full. -/
def fullPoll (samples : List Int) : Poll :=
  { samples := samples, written := 2 * samples.length, now := 0 }

/-- Successive calls of `getNextFileName`, one per entry of `creates`.  After a
call returns, the file it named is created when the entry says so.  The result
lists what each call returned, with whether that path existed at that moment. -/
def getNextFileNames : List Bool → Nat → State → Option (List (String × Bool) × State)
  | [], _, s => some ([], s)
  | create :: rest, fuel, s =>
    match getNextFileName fuel s with
    | none => none
    | some s1 =>
      let s2 := if create then
          { s1 with disk := Function.update s1.disk s1.wavFileName (some []) }
        else s1
      match getNextFileNames rest fuel s2 with
      | none => none
      | some (names, s3) => some ((s1.wavFileName, spiffsExists s1 s1.wavFileName) :: names, s3)

/-- The peak absolute sample value of a frame, as the specification words it. -/
def peakAbs (samples : List Int) : Int :=
  samples.foldl (fun m x => max m |x|) 0

/-! ## Definitions used in the statements and proofs -/

/-- The bytes of an ASCII string. -/
def ascii (s : String) : List Nat := s.data.map Char.toNat

/-- The value of a decimal digit character. -/
def digitVal (c : Char) : Nat := c.toNat - 48

/-- The value of a decimal numeral, most significant digit first, continuing from `a`. -/
def numeralVal (a : Nat) (cs : List Char) : Nat := cs.foldl (fun a c => 10 * a + digitVal c) a

/-- Whether an event is a call of `SPIFFS.exists`. -/
def Event.isExists : Event → Bool
  | Event.fsExists _ _ => true
  | _ => false

/-- The store in which exactly the first two recordings exist. -/
def twoRecordings (p : String) : Option (List Nat) :=
  if p = "/recording_000.wav" ∨ p = "/recording_001.wav" then some [] else none

/-- The path the call number `j` (counting from 0) of `getNextFileName` returns when no
probe finds a file, with the answer of the existence check at that moment. -/
def nthName (j : Nat) : String × Bool := (fileName (wrapInt32 j), false)

/-- The counter value the loop of `getNextFileName` probes in its iteration
number `k` (counting from 0) when it starts from `c`. -/
def probe (c : Int) : Nat → Int
  | 0 => c
  | k + 1 => probe (wrapInt32 (c + 1)) k

/-- The bytes a poll really appends: what the file system takes of its samples. -/
def pollBytes (p : Poll) : List Nat := (samplesBytes p.samples).take p.written

/-- The bytes a poll asks to append: two per sample. -/
def pollSize (p : Poll) : Nat := 2 * p.samples.length

/-- The number of samples a run of polls delivers: `l1 + .. + lk`. -/
def totalSamples (polls : List Poll) : Nat := (polls.map (fun p => p.samples.length)).sum

/-- All samples of a run of polls, in order, the chunk boundaries forgotten. -/
def allSamples (polls : List Poll) : List Int := polls.flatMap (fun p => p.samples)

/-! ## Lemmas -/

theorem fromLE_le32 (n : Nat) : fromLE (le32 n) = n % two32 := by
  simp only [fromLE, le32, two32]; omega

theorem fromLE_le16 (n : Nat) : fromLE (le16 n) = n % two16 := by
  simp only [fromLE, le16, two16]; omega

theorem headerBytes_eq (h : WAVHeader) :
    headerBytes h = h.riffHeader.bytes ++ (le32 h.wavSize ++ (h.waveHeader.bytes ++
      (h.fmtHeader.bytes ++ (le32 h.fmtChunkSize ++ (le16 h.audioFormat ++
      (le16 h.numChannels ++ (le32 h.sampleRate ++ (le32 h.byteRate ++
      (le16 h.blockAlign ++ (le16 h.bitsPerSample ++ (h.dataHeader.bytes ++
      le32 h.dataSize))))))))))) := by
  simp [headerBytes, objectBytes, headerMembers, padTo, le32, le16, Char4.bytes]

theorem slice_zero_append (a b : List Nat) (n : Nat) (h : a.length = n) :
    slice 0 n (a ++ b) = a := by
  subst h; simp [slice]

theorem slice_skip (a b : List Nat) (off n : Nat) (h : a.length ≤ off) :
    slice off n (a ++ b) = slice (off - a.length) n b := by
  simp only [slice]
  rw [List.drop_append_eq_append_drop, List.drop_of_length_le h]
  simp

theorem len_le32 (n : Nat) : (le32 n).length = 4 := rfl
theorem len_le16 (n : Nat) : (le16 n).length = 2 := rfl
theorem len_Char4 (c : Char4) : c.bytes.length = 4 := rfl

theorem header_slices (h : WAVHeader) :
    slice 0 4 (headerBytes h) = h.riffHeader.bytes ∧
    slice 4 4 (headerBytes h) = le32 h.wavSize ∧
    slice 8 4 (headerBytes h) = h.waveHeader.bytes ∧
    slice 12 4 (headerBytes h) = h.fmtHeader.bytes ∧
    slice 16 4 (headerBytes h) = le32 h.fmtChunkSize ∧
    slice 20 2 (headerBytes h) = le16 h.audioFormat ∧
    slice 22 2 (headerBytes h) = le16 h.numChannels ∧
    slice 24 4 (headerBytes h) = le32 h.sampleRate ∧
    slice 28 4 (headerBytes h) = le32 h.byteRate ∧
    slice 32 2 (headerBytes h) = le16 h.blockAlign ∧
    slice 34 2 (headerBytes h) = le16 h.bitsPerSample ∧
    slice 36 4 (headerBytes h) = h.dataHeader.bytes ∧
    slice 40 4 (headerBytes h) = le32 h.dataSize := by
  rw [headerBytes_eq]
  refine ⟨?_, ?_, ?_, ?_, ?_, ?_, ?_, ?_, ?_, ?_, ?_, ?_, ?_⟩ <;>
    simp [slice_skip, slice_zero_append, len_le32, len_le16, len_Char4]
  simp [slice, len_le32]

theorem headerBytes_length (h : WAVHeader) : (headerBytes h).length = 44 := by
  simp [headerBytes_eq, len_le32, len_le16, len_Char4]

theorem stopRecording_wavHeader (seekOk : Bool) (written : Nat) (s : State)
    (h : s.isRecording = true) :
    (stopRecording seekOk written s).wavHeader = finalizeHeader s.wavHeader s.bytesWritten := by
  simp only [stopRecording, h, if_true, wavFile_close, wavFile_write, wavFile_seek]
  cases hf : s.wavFile <;> simp

theorem digitVal_digitChar (d : Nat) (h : d < 10) : digitVal (Nat.digitChar d) = d := by
  interval_cases d <;> rfl

theorem digitChar_ne_minus (d : Nat) (h : d < 10) : Nat.digitChar d ≠ '-' := by
  interval_cases d <;> decide

theorem numeralVal_toDigitsCore (fuel : Nat) : ∀ (n : Nat) (ds : List Char), n < fuel →
    numeralVal 0 (Nat.toDigitsCore 10 fuel n ds) = numeralVal n ds := by
  induction fuel with
  | zero => intro n ds h; omega
  | succ fuel ih =>
    intro n ds h
    simp only [Nat.toDigitsCore]
    have hd : digitVal (Nat.digitChar (n % 10)) = n % 10 :=
      digitVal_digitChar _ (Nat.mod_lt _ (by decide))
    split
    · rename_i h0
      simp only [numeralVal, List.foldl_cons, hd]
      congr 1; omega
    · rename_i h0
      rw [ih (n / 10) _ (by omega)]
      simp only [numeralVal, List.foldl_cons, hd]
      congr 1; omega

theorem numeralVal_toDigits (n : Nat) : numeralVal 0 (Nat.toDigits 10 n) = n := by
  simp only [Nat.toDigits]
  rw [numeralVal_toDigitsCore _ _ _ (Nat.lt_succ_self n)]
  rfl

theorem numeralVal_padZeros (w : Nat) (cs : List Char) :
    numeralVal 0 (padZeros w cs) = numeralVal 0 cs := by
  simp only [padZeros, numeralVal, List.foldl_append]
  congr 1
  induction (w - cs.length) with
  | zero => rfl
  | succ k ih => simp only [List.replicate_succ, List.foldl_cons]; exact ih

theorem toDigitsCore_head (fuel : Nat) : ∀ (n : Nat) (ds : List Char), 0 < fuel →
    ∃ d tl, d < 10 ∧ Nat.toDigitsCore 10 fuel n ds = Nat.digitChar d :: tl := by
  induction fuel with
  | zero => intro n ds h; omega
  | succ fuel ih =>
    intro n ds _
    simp only [Nat.toDigitsCore]
    split
    · exact ⟨n % 10, ds, Nat.mod_lt _ (by decide), rfl⟩
    · cases fuel with
      | zero => exact ⟨n % 10, ds, Nat.mod_lt _ (by decide), rfl⟩
      | succ f => exact ih _ _ (Nat.succ_pos f)

theorem padZeros_head (w n : Nat) :
    ∃ d tl, d < 10 ∧ padZeros w (Nat.toDigits 10 n) = Nat.digitChar d :: tl := by
  obtain ⟨d, tl, hd, e⟩ := toDigitsCore_head (n + 1) n [] (Nat.succ_pos n)
  simp only [padZeros, Nat.toDigits, e]
  cases hk : w - (Nat.digitChar d :: tl).length with
  | zero => exact ⟨d, tl, hd, by simp⟩
  | succ k => exact ⟨0, List.replicate k '0' ++ Nat.digitChar d :: tl, by decide, by
      simp only [List.replicate_succ, List.cons_append]; rfl⟩

theorem fmt03d_injective : Function.Injective fmt03d := by
  intro a b h
  simp only [fmt03d] at h
  split at h <;> split at h
  · rename_i ha hb
    have h2 := congrArg (numeralVal 0) (List.cons.inj h).2
    rw [numeralVal_padZeros, numeralVal_padZeros, numeralVal_toDigits, numeralVal_toDigits] at h2
    omega
  · rename_i ha hb
    obtain ⟨d, tl, hd, e⟩ := padZeros_head 3 b.toNat
    rw [e] at h
    exact absurd (List.cons.inj h).1.symm (digitChar_ne_minus d hd)
  · rename_i ha hb
    obtain ⟨d, tl, hd, e⟩ := padZeros_head 3 a.toNat
    rw [e] at h
    exact absurd (List.cons.inj h).1 (digitChar_ne_minus d hd)
  · rename_i ha hb
    have h2 := congrArg (numeralVal 0) h
    rw [numeralVal_padZeros, numeralVal_padZeros, numeralVal_toDigits, numeralVal_toDigits] at h2
    omega

theorem fileName_injective : Function.Injective fileName := by
  intro a b h
  have h1 := congrArg String.data h
  simp only [fileName, List.append_assoc] at h1
  exact fmt03d_injective (List.append_cancel_right (List.append_cancel_left h1))

theorem wrapInt32_of_range (x : Int) (h1 : -2147483648 ≤ x) (h2 : x < 2147483648) :
    wrapInt32 x = x := by
  simp only [wrapInt32]; omega

theorem wrapInt32_range (x : Int) : -2147483648 ≤ wrapInt32 x ∧ wrapInt32 x < 2147483648 := by
  simp only [wrapInt32]; omega

theorem getNextFileName_free (fuel : Nat) (s : State)
    (hfree : s.disk (fileName s.fileCounter) = none) :
    getNextFileName (fuel + 1) s = some { s with
      wavFileName := fileName s.fileCounter
      fileCounter := wrapInt32 (s.fileCounter + 1)
      trace := s.trace ++ [Event.fsExists (fileName s.fileCounter) false] } := by
  simp [getNextFileName, spiffsExists, hfree]

theorem getNextFileName_busy (fuel : Nat) (s : State)
    (hbusy : s.disk (fileName s.fileCounter) ≠ none) :
    getNextFileName (fuel + 1) s = getNextFileName fuel { s with
      wavFileName := fileName s.fileCounter
      fileCounter := wrapInt32 (s.fileCounter + 1)
      trace := s.trace ++ [Event.fsExists (fileName s.fileCounter) true] } := by
  have h : (s.disk (fileName s.fileCounter)).isSome = true := by
    cases hd : s.disk (fileName s.fileCounter) with
    | none => exact absurd hd hbusy
    | some v => rfl
  simp [getNextFileName, spiffsExists, h]

theorem getNextFileName_least (k : Nat) : ∀ (s : State) (fuel : Nat),
    -2147483648 ≤ s.fileCounter → s.fileCounter + k ≤ 2147483647 →
    s.disk (fileName (s.fileCounter + k)) = none →
    (∀ j : Nat, j < k → s.disk (fileName (s.fileCounter + j)) ≠ none) →
    k + 1 ≤ fuel →
    ∃ tr, getNextFileName fuel s = some { s with
        wavFileName := fileName (s.fileCounter + k)
        fileCounter := wrapInt32 (s.fileCounter + k + 1)
        trace := s.trace ++ tr } ∧
      ∀ e ∈ tr, e.isExists = true := by
  induction k with
  | zero =>
    intro s fuel _ _ hfree _ hfuel
    obtain ⟨f, rfl⟩ : ∃ f, fuel = f + 1 := ⟨fuel - 1, by omega⟩
    simp only [Nat.cast_zero, add_zero] at hfree ⊢
    refine ⟨[Event.fsExists (fileName s.fileCounter) false], getNextFileName_free f s hfree, ?_⟩
    intro e he
    simp only [List.mem_singleton] at he
    subst he; rfl
  | succ k ih =>
    intro s fuel hlo hhi hfree hbusy hfuel
    obtain ⟨f, rfl⟩ : ∃ f, fuel = f + 1 := ⟨fuel - 1, by omega⟩
    have h0 := hbusy 0 (Nat.succ_pos k)
    simp only [Nat.cast_zero, add_zero] at h0
    rw [getNextFileName_busy f s h0]
    have hw : wrapInt32 (s.fileCounter + 1) = s.fileCounter + 1 :=
      wrapInt32_of_range _ (by omega) (by push_cast at hhi; omega)
    have hk : s.fileCounter + ((k + 1 : Nat) : Int) = s.fileCounter + 1 + (k : Int) := by
      push_cast; ring
    obtain ⟨tr, htr, hex⟩ := ih
      { s with
        wavFileName := fileName s.fileCounter
        fileCounter := wrapInt32 (s.fileCounter + 1)
        trace := s.trace ++ [Event.fsExists (fileName s.fileCounter) true] } f
      (by simp only [hw]; omega) (by simp only [hw]; push_cast at hhi; omega)
      (by simp only [hw]; rw [← hk]; exact hfree)
      (by
        intro j hj
        simp only [hw]
        have := hbusy (j + 1) (by omega)
        have e : s.fileCounter + ((j + 1 : Nat) : Int) = s.fileCounter + 1 + (j : Int) := by
          push_cast; ring
        rw [e] at this; exact this)
      (by omega)
    refine ⟨Event.fsExists (fileName s.fileCounter) true :: tr, ?_, ?_⟩
    · rw [htr]
      simp only [hw, hk, List.append_assoc, List.singleton_append]
    · intro e he
      rcases List.mem_cons.mp he with rfl | h
      · rfl
      · exact hex e h

theorem wrapInt32_succ (x : Int) : wrapInt32 (wrapInt32 x + 1) = wrapInt32 (x + 1) := by
  simp only [wrapInt32]; omega

theorem wrapInt32_inj_of_lt (i j : Nat) (hi : i < 4294967296) (hj : j < 4294967296)
    (h : wrapInt32 i = wrapInt32 j) : i = j := by
  simp only [wrapInt32] at h; omega

theorem getNextFileNames_fresh (creates : List Bool) : ∀ (i0 : Nat) (s : State) (fuel : Nat),
    s.fileCounter = wrapInt32 i0 →
    (∀ p, s.disk p ≠ none → ∃ j : Nat, j < i0 ∧ p = fileName (wrapInt32 j)) →
    i0 + creates.length ≤ 4294967296 →
    ∃ s', getNextFileNames creates (fuel + 1) s
      = some ((List.range' i0 creates.length).map nthName, s') := by
  induction creates with
  | nil => intro i0 s fuel _ _ _; exact ⟨s, rfl⟩
  | cons c rest ih =>
    intro i0 s fuel hc hdisk hlen
    simp only [List.length_cons] at hlen
    have hfree : s.disk (fileName s.fileCounter) = none := by
      by_contra hne
      obtain ⟨j, hj, e⟩ := hdisk _ hne
      rw [hc] at e
      have := wrapInt32_inj_of_lt i0 j (by omega) (by omega) (fileName_injective e)
      omega
    have hstep := getNextFileName_free fuel s hfree
    simp only [getNextFileNames, hstep]
    have hcnt : wrapInt32 (s.fileCounter + 1) = wrapInt32 ((i0 + 1 : Nat) : Int) := by
      rw [hc, wrapInt32_succ]; push_cast; rfl
    cases c with
    | false =>
      obtain ⟨s', hs'⟩ := ih (i0 + 1)
        { s with
          wavFileName := fileName s.fileCounter
          fileCounter := wrapInt32 (s.fileCounter + 1)
          trace := s.trace ++ [Event.fsExists (fileName s.fileCounter) false] } fuel hcnt
        (by
          intro p hp
          obtain ⟨j, hj, e⟩ := hdisk p hp
          exact ⟨j, by omega, e⟩)
        (by omega)
      refine ⟨s', ?_⟩
      simp only [Bool.false_eq_true, if_false, hs', spiffsExists, hfree, Option.isSome_none,
        List.length_cons, List.range'_succ, List.map_cons, nthName]
      rw [hc]
    | true =>
      obtain ⟨s', hs'⟩ := ih (i0 + 1)
        { s with
          wavFileName := fileName s.fileCounter
          fileCounter := wrapInt32 (s.fileCounter + 1)
          trace := s.trace ++ [Event.fsExists (fileName s.fileCounter) false]
          disk := Function.update s.disk (fileName s.fileCounter) (some []) } fuel hcnt
        (by
          intro p hp
          by_cases hpe : p = fileName s.fileCounter
          · exact ⟨i0, by omega, by rw [hpe, hc]⟩
          · simp only [Function.update_noteq hpe] at hp
            obtain ⟨j, hj, e⟩ := hdisk p hp
            exact ⟨j, by omega, e⟩)
        (by omega)
      refine ⟨s', ?_⟩
      simp only [if_true, hs', spiffsExists, hfree, Option.isSome_none,
        List.length_cons, List.range'_succ, List.map_cons, nthName]
      rw [hc]

theorem getNextFileNames_empty (m : Nat) : ∀ (i0 : Nat) (s : State) (fuel : Nat),
    s.fileCounter = wrapInt32 i0 → (∀ p, s.disk p = none) →
    ∃ s', getNextFileNames (List.replicate m false) (fuel + 1) s
      = some ((List.range' i0 m).map nthName, s') := by
  induction m with
  | zero => intro i0 s fuel _ _; exact ⟨s, rfl⟩
  | succ m ih =>
    intro i0 s fuel hc hdisk
    have hstep := getNextFileName_free fuel s (hdisk _)
    have hcnt : wrapInt32 (s.fileCounter + 1) = wrapInt32 ((i0 + 1 : Nat) : Int) := by
      rw [hc, wrapInt32_succ]; push_cast; rfl
    obtain ⟨s', hs'⟩ := ih (i0 + 1)
      { s with
        wavFileName := fileName s.fileCounter
        fileCounter := wrapInt32 (s.fileCounter + 1)
        trace := s.trace ++ [Event.fsExists (fileName s.fileCounter) false] } fuel hcnt hdisk
    refine ⟨s', ?_⟩
    simp only [List.replicate_succ, getNextFileNames, hstep, Bool.false_eq_true, if_false, hs',
      spiffsExists, hdisk, Option.isSome_none, List.range'_succ, List.map_cons, nthName]
    rw [hc]

theorem getNextFileName_terminates (k : Nat) : ∀ (s : State) (fuel : Nat),
    s.disk (fileName (probe s.fileCounter k)) = none → k + 1 ≤ fuel →
    ∃ s0, getNextFileName fuel s = some s0 := by
  induction k with
  | zero =>
    intro s fuel hfree hfuel
    obtain ⟨f, rfl⟩ : ∃ f, fuel = f + 1 := ⟨fuel - 1, by omega⟩
    exact ⟨_, getNextFileName_free f s hfree⟩
  | succ k ih =>
    intro s fuel hfree hfuel
    obtain ⟨f, rfl⟩ : ∃ f, fuel = f + 1 := ⟨fuel - 1, by omega⟩
    by_cases h0 : s.disk (fileName s.fileCounter) = none
    · exact ⟨_, getNextFileName_free f s h0⟩
    · rw [getNextFileName_busy f s h0]
      exact ih _ f hfree (by omega)

theorem getNextFileName_frame (fuel : Nat) : ∀ (s s0 : State),
    getNextFileName fuel s = some s0 →
    s0.wavFile = s.wavFile ∧ s0.recordStartTime = s.recordStartTime ∧
    s0.isRecording = s.isRecording ∧ s0.wavHeader = s.wavHeader ∧
    s0.bytesWritten = s.bytesWritten ∧ s0.audioBuffer = s.audioBuffer ∧
    s0.lastUpdate = s.lastUpdate ∧ s0.disk = s.disk ∧
    s0.disk s0.wavFileName = none ∧
    ∃ tr, s0.trace = s.trace ++ tr ∧ ∀ e ∈ tr, e.isExists = true := by
  induction fuel with
  | zero => intro s s0 h; simp [getNextFileName] at h
  | succ f ih =>
    intro s s0 h
    by_cases h0 : s.disk (fileName s.fileCounter) = none
    · rw [getNextFileName_free f s h0] at h
      cases h
      refine ⟨rfl, rfl, rfl, rfl, rfl, rfl, rfl, rfl, h0, _, rfl, ?_⟩
      intro e he
      simp only [List.mem_singleton] at he
      subst he; rfl
    · rw [getNextFileName_busy f s h0] at h
      obtain ⟨a1, a2, a3, a4, a5, a6, a7, a8, a9, tr, htr, hex⟩ := ih _ s0 h
      refine ⟨a1, a2, a3, a4, a5, a6, a7, a8, a9,
        Event.fsExists (fileName s.fileCounter) true :: tr, ?_, ?_⟩
      · rw [htr]; simp
      · intro e he
        rcases List.mem_cons.mp he with rfl | h'
        · rfl
        · exact hex e h'

theorem startRecording_closed (fuel written now : Nat) (s s0 : State)
    (h : getNextFileName fuel s = some s0) :
    startRecording fuel false written now s = some { s0 with
      wavFile := none
      trace := s0.trace ++ [Event.fsOpen s0.wavFileName false] } := by
  simp [startRecording, h]

theorem samplesBytes_length (xs : List Int) : (samplesBytes xs).length = 2 * xs.length := by
  induction xs with
  | nil => rfl
  | cons x xs ih =>
    simp only [samplesBytes, List.flatMap_cons, List.length_append, List.length_cons] at ih ⊢
    rw [ih]; simp only [sampleBytes, le16, List.length_cons, List.length_nil]; omega

theorem samplesBytes_append (xs ys : List Int) :
    samplesBytes (xs ++ ys) = samplesBytes xs ++ samplesBytes ys := by
  simp [samplesBytes, List.flatMap_append]

theorem take_samplesBytes (xs rest : List Int) :
    (samplesBytes (xs ++ rest)).take (2 * xs.length) = samplesBytes xs := by
  rw [samplesBytes_append, ← samplesBytes_length xs, List.take_left']
  rfl

theorem wavFile_write_frame (bytes : List Nat) (written : Nat) (s : State) :
    (wavFile_write bytes written s).isRecording = s.isRecording ∧
    (wavFile_write bytes written s).wavHeader = s.wavHeader ∧
    (wavFile_write bytes written s).wavFileName = s.wavFileName ∧
    (wavFile_write bytes written s).bytesWritten = s.bytesWritten ∧
    (wavFile_write bytes written s).audioBuffer = s.audioBuffer ∧
    (wavFile_write bytes written s).lastUpdate = s.lastUpdate ∧
    (wavFile_write bytes written s).fileCounter = s.fileCounter ∧
    (wavFile_write bytes written s).recordStartTime = s.recordStartTime := by
  cases h : s.wavFile <;> simp [wavFile_write, h]

theorem wavFile_write_open (bytes : List Nat) (written : Nat) (s : State) (name : String)
    (pos : Nat) (h : s.wavFile = some ⟨name, pos⟩) :
    (wavFile_write bytes written s).wavFile = some ⟨name, pos + (bytes.take written).length⟩ ∧
    (wavFile_write bytes written s).disk = Function.update s.disk name
      (some (((s.disk name).getD []).take pos ++ bytes.take written ++
        ((s.disk name).getD []).drop (pos + (bytes.take written).length))) ∧
    (wavFile_write bytes written s).trace
      = s.trace ++ [Event.fileWrite bytes (bytes.take written).length] := by
  simp [wavFile_write, h]

/-- What `processAudio` does to a recording session whose file is open with the
position at the end: the bytes taken are appended, the counter grows by the
bytes asked for. -/
theorem processAudio_step (p : Poll) (s : State) (name : String) (content : List Nat)
    (req : Nat)
    (hrec : s.isRecording = true) (hlen : p.samples.length ≤ BUFFER_SIZE)
    (hfile : s.wavFile = some ⟨name, content.length⟩)
    (hdisk : s.disk name = some content)
    (hbw : s.bytesWritten = req % two32) :
    let s' := processAudio p.samples p.written p.now s
    s'.isRecording = true ∧ s'.wavHeader = s.wavHeader ∧ s'.wavFileName = s.wavFileName ∧
    s'.wavFile = some ⟨name, (content ++ pollBytes p).length⟩ ∧
    s'.disk name = some (content ++ pollBytes p) ∧
    s'.bytesWritten = (req + pollSize p) % two32 := by
  have hl : p.samples.length % two32 = p.samples.length :=
    Nat.mod_eq_of_lt (by simp only [BUFFER_SIZE] at hlen; simp only [two32]; omega)
  have hsz : p.samples.length * 2 % two32 = 2 * p.samples.length :=
    by rw [Nat.mod_eq_of_lt (by simp only [BUFFER_SIZE] at hlen; simp only [two32]; omega)]; omega
  intro s'
  by_cases h0 : p.samples.length = 0
  · have hnil : p.samples = [] := List.length_eq_zero.mp h0
    have hs' : s' = { s with audioBuffer := s.audioBuffer, trace := s.trace ++ [Event.micRecord 0] } := by
      simp [s', processAudio, hrec, hnil]
    rw [hs']
    simp [pollBytes, pollSize, hnil, samplesBytes, hfile, hdisk, hbw, hrec]
  · have hpos : 0 < p.samples.length := Nat.pos_of_ne_zero h0
    generalize hs1 : ({ s with
        audioBuffer := p.samples ++ s.audioBuffer.drop p.samples.length
        trace := s.trace ++ [Event.micRecord p.samples.length] } : State) = s1
    have hf1 : s1.wavFile = some ⟨name, content.length⟩ := by rw [← hs1]; exact hfile
    have hd1 : s1.disk name = some content := by rw [← hs1]; exact hdisk
    have hb1 : s1.audioBuffer = p.samples ++ s.audioBuffer.drop p.samples.length := by
      rw [← hs1]
    have hr1 : s1.isRecording = true := by rw [← hs1]; exact hrec
    have hh1 : s1.wavHeader = s.wavHeader := by rw [← hs1]
    have hn1 : s1.wavFileName = s.wavFileName := by rw [← hs1]
    have hw1 : s1.bytesWritten = req % two32 := by rw [← hs1]; exact hbw
    obtain ⟨f1, f2, f3, f4, _, _, _, _⟩ :=
      wavFile_write_frame (samplesBytes p.samples) p.written s1
    obtain ⟨g1, g2, _⟩ :=
      wavFile_write_open (samplesBytes p.samples) p.written s1 name content.length hf1
    have hs' : s' = (let s3 := { wavFile_write (samplesBytes p.samples) p.written s1 with
          bytesWritten := ((wavFile_write (samplesBytes p.samples) p.written s1).bytesWritten
            + 2 * p.samples.length) % two32 }
        if (p.now % two32 + two32 - s3.lastUpdate) % two32 > 100 then
          { s3 with
            lastUpdate := p.now % two32
            trace := s3.trace ++ [Event.level (meterLevel p.samples.length s3.audioBuffer)] }
        else s3) := by
      have hneg : ¬ ((!s.isRecording) = true) := by simp [hrec]
      simp only [s', processAudio]
      rw [if_neg hneg]
      simp only [hl, hpos, if_true, hsz, hs1, hb1, take_samplesBytes, gt_iff_lt]
    rw [hs']
    simp only
    split <;>
      simp [f1, f2, f3, f4, g1, g2, hr1, hh1, hn1, hw1, hd1, pollBytes, pollSize, Nat.add_mod]

theorem processAll_step (polls : List Poll) : ∀ (s : State) (name : String)
    (content : List Nat) (req : Nat),
    s.isRecording = true → (∀ p ∈ polls, p.samples.length ≤ BUFFER_SIZE) →
    s.wavFile = some ⟨name, content.length⟩ → s.disk name = some content →
    s.bytesWritten = req % two32 →
    (processAll polls s).isRecording = true ∧
    (processAll polls s).wavHeader = s.wavHeader ∧
    (processAll polls s).wavFileName = s.wavFileName ∧
    (processAll polls s).wavFile
      = some ⟨name, (content ++ polls.flatMap pollBytes).length⟩ ∧
    (processAll polls s).disk name = some (content ++ polls.flatMap pollBytes) ∧
    (processAll polls s).bytesWritten = (req + (polls.map pollSize).sum) % two32 := by
  induction polls with
  | nil =>
    intro s name content req hrec _ hfile hdisk hbw
    simp [processAll, hrec, hfile, hdisk, hbw]
  | cons p rest ih =>
    intro s name content req hrec hlen hfile hdisk hbw
    obtain ⟨a1, a2, a3, a4, a5, a6⟩ := processAudio_step p s name content req hrec
      (hlen p (List.mem_cons_self _ _)) hfile hdisk hbw
    obtain ⟨b1, b2, b3, b4, b5, b6⟩ := ih (processAudio p.samples p.written p.now s) name
      (content ++ pollBytes p) (req + pollSize p) a1
      (fun q hq => hlen q (List.mem_cons_of_mem _ hq)) a4 a5 a6
    have e : processAll (p :: rest) s = processAll rest (processAudio p.samples p.written p.now s) :=
      rfl
    rw [e]
    refine ⟨b1, b2.trans a2, b3.trans a3, ?_, ?_, ?_⟩
    · rw [b4]; simp [List.flatMap_cons, List.append_assoc]
    · rw [b5]; simp [List.flatMap_cons, List.append_assoc]
    · rw [b6]; simp [List.map_cons, List.sum_cons, Nat.add_assoc]

theorem startRecording_opened (fuel written now : Nat) (s s0 : State)
    (h : getNextFileName fuel s = some s0) :
    ∃ s1, startRecording fuel true written now s = some s1 ∧
      s1.isRecording = true ∧ s1.wavHeader = initWAVHeader s.wavHeader ∧
      s1.wavFileName = s0.wavFileName ∧
      s1.wavFile = some ⟨s0.wavFileName, ((headerBytes (initWAVHeader s.wavHeader)).take written).length⟩ ∧
      s1.disk s0.wavFileName = some ((headerBytes (initWAVHeader s.wavHeader)).take written) ∧
      s1.bytesWritten = 0 ∧ s1.recordStartTime = now % two32 ∧
      s1.trace = s0.trace ++ [Event.fsOpen s0.wavFileName true,
        Event.fileWrite (headerBytes (initWAVHeader s.wavHeader))
          ((headerBytes (initWAVHeader s.wavHeader)).take written).length,
        Event.micBegin] := by
  obtain ⟨_, _, _, a4, _⟩ := getNextFileName_frame fuel s s0 h
  rw [← a4]
  generalize hs2 : ({ s0 with
        wavFile := some { path := s0.wavFileName, pos := 0 }
        disk := Function.update s0.disk s0.wavFileName (some [])
        trace := s0.trace ++ [Event.fsOpen s0.wavFileName true]
        wavHeader := initWAVHeader s0.wavHeader } : State) = s2
  have hf2 : s2.wavFile = some ⟨s0.wavFileName, 0⟩ := by rw [← hs2]
  have hd2 : s2.disk s0.wavFileName = some [] := by rw [← hs2]; simp
  have hh2 : s2.wavHeader = initWAVHeader s0.wavHeader := by rw [← hs2]
  have hn2 : s2.wavFileName = s0.wavFileName := by rw [← hs2]
  have ht2 : s2.trace = s0.trace ++ [Event.fsOpen s0.wavFileName true] := by rw [← hs2]
  obtain ⟨f1, f2, f3, f4, _, _, _, _⟩ :=
    wavFile_write_frame (headerBytes (initWAVHeader s0.wavHeader)) written s2
  obtain ⟨g1, g2, g3⟩ :=
    wavFile_write_open (headerBytes (initWAVHeader s0.wavHeader)) written s2 s0.wavFileName 0 hf2
  refine ⟨{ wavFile_write (headerBytes (initWAVHeader s0.wavHeader)) written s2 with
      bytesWritten := 0
      trace := (wavFile_write (headerBytes (initWAVHeader s0.wavHeader)) written s2).trace
        ++ [Event.micBegin]
      isRecording := true
      recordStartTime := now % two32 }, ?_, rfl, ?_, ?_, ?_, ?_, rfl, rfl, ?_⟩
  · simp only [startRecording, h, if_true, hs2]
  · simp only [f2, hh2]
  · simp only [f3, hn2]
  · simp only [g1, Nat.zero_add]
  · simp [g2, hd2]
  · simp only [g3, ht2, List.append_assoc, List.cons_append, List.nil_append]

theorem wavFile_seek_open (pos0 : Nat) (ok : Bool) (s : State) (name : String) (pos : Nat)
    (h : s.wavFile = some ⟨name, pos⟩) :
    (wavFile_seek pos0 ok s).wavFile = some ⟨name, if ok then pos0 else pos⟩ ∧
    (wavFile_seek pos0 ok s).disk = s.disk ∧
    (wavFile_seek pos0 ok s).wavHeader = s.wavHeader ∧
    (wavFile_seek pos0 ok s).wavFileName = s.wavFileName ∧
    (wavFile_seek pos0 ok s).isRecording = s.isRecording ∧
    (wavFile_seek pos0 ok s).trace = s.trace ++ [Event.fileSeek pos0 ok] := by
  cases ok <;> simp [wavFile_seek, h]

theorem stopRecording_open (seekOk : Bool) (written : Nat) (s : State) (name : String)
    (pos : Nat) (hrec : s.isRecording = true) (hfile : s.wavFile = some ⟨name, pos⟩) :
    let s' := stopRecording seekOk written s
    let hdr := finalizeHeader s.wavHeader s.bytesWritten
    let at_ := if seekOk then 0 else pos
    s'.isRecording = false ∧ s'.wavFile = none ∧ s'.wavHeader = hdr ∧
    s'.wavFileName = s.wavFileName ∧
    s'.disk name = some (((s.disk name).getD []).take at_ ++ (headerBytes hdr).take written ++
        ((s.disk name).getD []).drop (at_ + ((headerBytes hdr).take written).length)) ∧
    s'.trace = s.trace ++ [Event.micEnd, Event.fileSeek 0 seekOk,
      Event.fileWrite (headerBytes hdr) ((headerBytes hdr).take written).length,
      Event.fileClose] := by
  intro s' hdr at_
  generalize hs3 : ({ s with
      trace := s.trace ++ [Event.micEnd]
      isRecording := false
      wavHeader := finalizeHeader s.wavHeader s.bytesWritten } : State) = s3
  have hf3 : s3.wavFile = some ⟨name, pos⟩ := by rw [← hs3]; exact hfile
  have hh3 : s3.wavHeader = hdr := by rw [← hs3]
  have hd3 : s3.disk = s.disk := by rw [← hs3]
  have hn3 : s3.wavFileName = s.wavFileName := by rw [← hs3]
  have hr3 : s3.isRecording = false := by rw [← hs3]
  have ht3 : s3.trace = s.trace ++ [Event.micEnd] := by rw [← hs3]
  obtain ⟨k1, k2, k3, k4, k5, k6⟩ := wavFile_seek_open 0 seekOk s3 name pos hf3
  have k3h : (wavFile_seek 0 seekOk s3).wavHeader = hdr := k3.trans hh3
  obtain ⟨f1, f2, f3, _⟩ :=
    wavFile_write_frame (headerBytes hdr) written (wavFile_seek 0 seekOk s3)
  obtain ⟨g1, g2, g3⟩ :=
    wavFile_write_open (headerBytes hdr) written
      (wavFile_seek 0 seekOk s3) name (if seekOk then 0 else pos) k1
  have hs' : s' = wavFile_close (wavFile_write
      (headerBytes hdr) written (wavFile_seek 0 seekOk s3)) := by
    simp only [s', stopRecording]
    rw [if_pos hrec]
    simp only [hs3, k3h]
  rw [hs']
  simp only [wavFile_close]
  refine ⟨?_, trivial, ?_, ?_, ?_, ?_⟩
  · simp only [f1, k5, hr3]
  · simp only [f2, k3h]
  · simp only [f3, k4, hn3]
  · simp only [g2, k2, hd3, Function.update_same, at_]
  · simp only [g3, k6, ht3, List.append_assoc, List.cons_append, List.nil_append]

theorem sum_pollSize (polls : List Poll) :
    (polls.map pollSize).sum = 2 * totalSamples polls := by
  induction polls with
  | nil => rfl
  | cons p rest ih =>
    simp only [List.map_cons, List.sum_cons, totalSamples] at ih ⊢
    rw [ih]; simp only [pollSize]; omega

theorem totalSamples_eq (polls : List Poll) : totalSamples polls = (allSamples polls).length := by
  induction polls with
  | nil => rfl
  | cons p rest ih =>
    simp only [totalSamples, allSamples, List.map_cons, List.sum_cons, List.flatMap_cons,
      List.length_append] at ih ⊢
    rw [ih]

theorem flatMap_pollBytes_full (polls : List Poll)
    (hfull : ∀ p ∈ polls, 2 * p.samples.length ≤ p.written) :
    polls.flatMap pollBytes = samplesBytes (allSamples polls) := by
  induction polls with
  | nil => rfl
  | cons p rest ih =>
    have hp : pollBytes p = samplesBytes p.samples := by
      simp only [pollBytes]
      exact List.take_of_length_le (by
        rw [samplesBytes_length]; exact hfull p (List.mem_cons_self _ _))
    simp only [allSamples, List.flatMap_cons, samplesBytes_append] at ih ⊢
    rw [hp, ih (fun q hq => hfull q (List.mem_cons_of_mem _ hq))]

/-- The whole session in terms of what each write takes: the file that results
and the header `stopRecording` leaves. -/
theorem recordSession_result (s : State) (k fuel hdrWritten now finalWritten : Nat)
    (polls : List Poll) (seekOk : Bool)
    (hfree : spiffsExists s (fileName (probe s.fileCounter k)) = false)
    (hfuel : k + 1 ≤ fuel)
    (hlen : ∀ p ∈ polls, p.samples.length ≤ BUFFER_SIZE) :
    ∃ s', recordSession fuel true hdrWritten now polls seekOk finalWritten s = some s' ∧
      s'.isRecording = false ∧ s'.wavFile = none ∧
      s'.wavHeader = finalizeHeader (initWAVHeader s.wavHeader)
        ((polls.map pollSize).sum % two32) ∧
      (44 ≤ hdrWritten → seekOk = true → 44 ≤ finalWritten →
        s'.disk s'.wavFileName = some (headerBytes s'.wavHeader ++ polls.flatMap pollBytes)) := by
  have hnone : s.disk (fileName (probe s.fileCounter k)) = none := by
    simpa [spiffsExists] using hfree
  obtain ⟨s0, hs0⟩ := getNextFileName_terminates k s fuel hnone hfuel
  obtain ⟨s1, hs1, a1, a2, a3, a4, a5, a6, _, _⟩ :=
    startRecording_opened fuel hdrWritten now s s0 hs0
  obtain ⟨b1, b2, b3, b4, b5, b6⟩ := processAll_step polls s1 s0.wavFileName
    ((headerBytes (initWAVHeader s.wavHeader)).take hdrWritten) 0 a1 hlen a4 a5
    (by rw [a6]; rfl)
  obtain ⟨c1, c2, c3, c4, c5, _⟩ := stopRecording_open seekOk finalWritten
    (processAll polls s1) s0.wavFileName _ b1 b4
  refine ⟨stopRecording seekOk finalWritten (processAll polls s1), ?_, c1, c2, ?_, ?_⟩
  · simp only [recordSession, hs1]
  · rw [c3, b2, a2, b6, Nat.zero_add]
  · intro h1 h2 h3
    have e1 : (headerBytes (initWAVHeader s.wavHeader)).take hdrWritten
        = headerBytes (initWAVHeader s.wavHeader) :=
      List.take_of_length_le (by rw [headerBytes_length]; exact h1)
    have e2 : ∀ h : WAVHeader, (headerBytes h).take finalWritten = headerBytes h :=
      fun h => List.take_of_length_le (by rw [headerBytes_length]; exact h3)
    rw [c4, b3, a3, c5, c3, b5, e1, e2, h2]
    simp only [if_true, Option.getD_some, List.take_zero, List.nil_append, Nat.zero_add,
      headerBytes_length]
    rw [List.drop_append_of_le_length (by rw [headerBytes_length])]
    simp [List.drop_of_length_le, headerBytes_length]

theorem processAudio_bytesWritten (p : Poll) (t : State) (hrec : t.isRecording = true)
    (hlen : p.samples.length ≤ BUFFER_SIZE) (hbw : t.bytesWritten < two32) :
    (processAudio p.samples p.written p.now t).bytesWritten
      = (t.bytesWritten + pollSize p) % two32 := by
  have hl : p.samples.length % two32 = p.samples.length :=
    Nat.mod_eq_of_lt (by simp only [BUFFER_SIZE] at hlen; simp only [two32]; omega)
  have hsz : p.samples.length * 2 % two32 = 2 * p.samples.length :=
    by rw [Nat.mod_eq_of_lt (by simp only [BUFFER_SIZE] at hlen; simp only [two32]; omega)]; omega
  have hneg : ¬ ((!t.isRecording) = true) := by simp [hrec]
  simp only [processAudio]
  rw [if_neg hneg]
  simp only [hl, hsz, gt_iff_lt]
  by_cases h0 : 0 < p.samples.length
  · rw [if_pos h0]
    split <;> simp [(wavFile_write_frame _ _ _).2.2.2.1, pollSize]
  · rw [if_neg h0]
    have : p.samples.length = 0 := by omega
    simp [pollSize, this, Nat.mod_eq_of_lt hbw]

theorem toInt16_abs (x : Int) (h1 : -32768 < x) (h2 : x ≤ 32767) : toInt16 |x| = |x| := by
  have h3 : |x| ≤ 32767 := abs_le.mpr ⟨by omega, h2⟩
  have h4 : 0 ≤ |x| := abs_nonneg x
  simp only [toInt16]; omega

theorem meterStep_eq_max (m x : Int) (h1 : -32768 < x) (h2 : x ≤ 32767) :
    meterStep m x = max m |x| := by
  simp only [meterStep, toInt16_abs x h1 h2]
  split
  · rename_i h; exact (max_eq_right (le_of_lt h)).symm
  · rename_i h; exact (max_eq_left (not_lt.mp h)).symm

/-- Apart from the sample value -32768 the metering loop computes the peak
absolute value of the frame. -/
theorem meterLevel_eq_peakAbs (samples : List Int)
    (h : ∀ x ∈ samples, -32768 < x ∧ x ≤ 32767) :
    meterLevel samples.length samples = peakAbs samples := by
  simp only [meterLevel, peakAbs, List.take_length]
  generalize (0 : Int) = m
  induction samples generalizing m with
  | nil => rfl
  | cons x xs ih =>
    simp only [List.foldl_cons]
    rw [meterStep_eq_max m x (h x (List.mem_cons_self _ _)).1 (h x (List.mem_cons_self _ _)).2]
    exact ih (fun y hy => h y (List.mem_cons_of_mem _ hy)) _

/-! ## The claims -/

/-- C1: For every sequence of microphone chunks, each of at most BUFFER_SIZE samples, when
the file-name search finds a free name, the file opens, the seek succeeds, every file
write is taken in full and the total 2*(l1+..+lk) is below 2^32 - 36, running
startRecording, then processAudio once per chunk, then stopRecording returns and leaves
a file that is exactly the 44-byte header with dataSize = 2*(l1+..+lk) and
wavSize = 36 + dataSize, followed by exactly the sample bytes of the chunks in order
and nothing else.  The header is a function of the concatenated samples alone, so
dataSize does not depend on the chunk boundaries.  The format fields are those of
16000 Hz, mono, 16 bit: byteRate = 32000, blockAlign = 2. -/
theorem session_leaves_wav_file (s : State) (k fuel hdrWritten now finalWritten : Nat)
    (polls : List Poll)
    (hfree : spiffsExists s (fileName (probe s.fileCounter k)) = false)
    (hfuel : k + 1 ≤ fuel)
    (hlen : ∀ p ∈ polls, p.samples.length ≤ BUFFER_SIZE)
    (hfull : ∀ p ∈ polls, 2 * p.samples.length ≤ p.written)
    (hhdr : 44 ≤ hdrWritten) (hfin : 44 ≤ finalWritten)
    (htotal : 2 * totalSamples polls < two32 - 36) :
    ∃ s', recordSession fuel true hdrWritten now polls true finalWritten s = some s' ∧
      s'.disk s'.wavFileName
        = some (headerBytes s'.wavHeader ++ samplesBytes (allSamples polls)) ∧
      (headerBytes s'.wavHeader).length = 44 ∧
      s'.wavHeader.dataSize = 2 * totalSamples polls ∧
      s'.wavHeader.wavSize = 36 + s'.wavHeader.dataSize ∧
      s'.wavHeader.dataSize = (samplesBytes (allSamples polls)).length ∧
      s'.wavHeader
        = finalizeHeader (initWAVHeader s.wavHeader) (2 * (allSamples polls).length) ∧
      s'.wavHeader.numChannels = 1 ∧ s'.wavHeader.sampleRate = 16000 ∧
      s'.wavHeader.bitsPerSample = 16 ∧ s'.wavHeader.byteRate = 32000 ∧
      s'.wavHeader.blockAlign = 2 ∧
      s'.isRecording = false ∧ s'.wavFile = none := by
  obtain ⟨s', hs', h1, h2, h3, h4⟩ :=
    recordSession_result s k fuel hdrWritten now finalWritten polls true hfree hfuel hlen
  have hsum := sum_pollSize polls
  have htot := totalSamples_eq polls
  have hmod : (polls.map pollSize).sum % two32 = 2 * totalSamples polls := by
    rw [hsum]; exact Nat.mod_eq_of_lt (by simp only [two32] at htotal ⊢; omega)
  rw [hmod] at h3
  have hfile := h4 hhdr rfl hfin
  rw [flatMap_pollBytes_full polls hfull] at hfile
  have hds : s'.wavHeader.dataSize = 2 * totalSamples polls := by
    rw [h3]; simp only [finalizeHeader]
    exact Nat.mod_eq_of_lt (by simp only [two32] at htotal ⊢; omega)
  have hws : s'.wavHeader.wavSize = 36 + 2 * totalSamples polls := by
    rw [h3]; simp only [finalizeHeader]
    exact Nat.mod_eq_of_lt (by simp only [two32] at htotal ⊢; omega)
  refine ⟨s', hs', hfile, headerBytes_length _, hds, by rw [hws, hds], ?_, ?_, ?_, ?_, ?_, ?_,
    ?_, h1, h2⟩
  · rw [hds, samplesBytes_length, htot]
  · rw [h3, htot]
  all_goals
    rw [h3]
    simp [finalizeHeader, initWAVHeader, initWAVHeaderWith, SAMPLE_RATE, CHANNELS, BIT_DEPTH,
      two16, two32]

/-- C1, the scenario of the specification: two chunks of 512 samples give
dataSize = 2048, wavSize = 2084, byteRate = 32000, blockAlign = 2 and a file of
44 + 2048 bytes. -/
theorem session_leaves_wav_file_witness :
    ∃ s', recordSession 1 true 44 0
        [fullPoll (List.replicate 512 1), fullPoll (List.replicate 512 (-2))] true 44
        (initialState (fun _ => none)) = some s' ∧
      s'.wavHeader.dataSize = 2048 ∧ s'.wavHeader.wavSize = 2084 ∧
      s'.wavHeader.byteRate = 32000 ∧ s'.wavHeader.blockAlign = 2 ∧
      (s'.disk s'.wavFileName).map List.length = some (44 + 2048) := by
  have hl : ∀ x : Int, (fullPoll (List.replicate 512 x)).samples.length = 512 :=
    fun x => List.length_replicate 512 x
  have hw : ∀ x : Int, (fullPoll (List.replicate 512 x)).written = 1024 := by
    intro x
    show 2 * (List.replicate 512 x).length = 1024
    rw [List.length_replicate]
  have ht : totalSamples [fullPoll (List.replicate 512 1), fullPoll (List.replicate 512 (-2))]
      = 1024 := by
    simp only [totalSamples, List.map_cons, List.map_nil, List.sum_cons, List.sum_nil, hl]
    rfl
  obtain ⟨s', h1, h2, h3, h4, h5, h6, _, _, _, _, h11, h12, _, _⟩ :=
    session_leaves_wav_file (initialState (fun _ => none)) 0 1 44 0 44
      [fullPoll (List.replicate 512 1), fullPoll (List.replicate 512 (-2))]
      (by decide) (by decide)
      (by
        intro p hp
        simp only [List.mem_cons, List.mem_singleton, List.not_mem_nil, or_false] at hp
        rcases hp with rfl | rfl <;> rw [hl] <;> decide)
      (by
        intro p hp
        simp only [List.mem_cons, List.mem_singleton, List.not_mem_nil, or_false] at hp
        rcases hp with rfl | rfl <;> rw [hl, hw])
      (by decide) (by decide) (by rw [ht]; decide)
  rw [ht] at h4
  refine ⟨s', h1, h4, by rw [h5, h4], h11, h12, ?_⟩
  rw [h2, Option.map_some', List.length_append, h3, ← h6, h4]

/-- C2: For every value of the seven assignable members of a WAVHeader, the other members
holding their initialisers, the bytes written for the header are exactly 44: RIFF at
offsets 0-3, wavSize at 4-7, WAVE at 8-11, fmt and a blank at 12-15, fmtChunkSize = 16
at 16-19, audioFormat = 1 at 20-21, numChannels at 22-23, sampleRate at 24-27, byteRate
at 28-31, blockAlign at 32-33, bitsPerSample at 34-35, data at 36-39 and dataSize at
40-43, every integer little-endian (reading it back gives the member, reduced to its
width), and natural alignment puts no padding between the members. -/
theorem header_layout (wavSize numChannels sampleRate byteRate blockAlign bitsPerSample
    dataSize : Nat) :
    let h : WAVHeader :=
      { wavSize := wavSize, numChannels := numChannels, sampleRate := sampleRate,
        byteRate := byteRate, blockAlign := blockAlign, bitsPerSample := bitsPerSample,
        dataSize := dataSize }
    (headerBytes h).length = 44 ∧
    slice 0 4 (headerBytes h) = ascii "RIFF" ∧
    slice 4 4 (headerBytes h) = le32 wavSize ∧
    slice 8 4 (headerBytes h) = ascii "WAVE" ∧
    slice 12 4 (headerBytes h) = ascii "fmt " ∧
    slice 16 4 (headerBytes h) = le32 16 ∧
    slice 20 2 (headerBytes h) = le16 1 ∧
    slice 22 2 (headerBytes h) = le16 numChannels ∧
    slice 24 4 (headerBytes h) = le32 sampleRate ∧
    slice 28 4 (headerBytes h) = le32 byteRate ∧
    slice 32 2 (headerBytes h) = le16 blockAlign ∧
    slice 34 2 (headerBytes h) = le16 bitsPerSample ∧
    slice 36 4 (headerBytes h) = ascii "data" ∧
    slice 40 4 (headerBytes h) = le32 dataSize ∧
    fromLE (slice 4 4 (headerBytes h)) = wavSize % two32 ∧
    fromLE (slice 16 4 (headerBytes h)) = 16 ∧
    fromLE (slice 20 2 (headerBytes h)) = 1 ∧
    fromLE (slice 22 2 (headerBytes h)) = numChannels % two16 ∧
    fromLE (slice 24 4 (headerBytes h)) = sampleRate % two32 ∧
    fromLE (slice 28 4 (headerBytes h)) = byteRate % two32 ∧
    fromLE (slice 32 2 (headerBytes h)) = blockAlign % two16 ∧
    fromLE (slice 34 2 (headerBytes h)) = bitsPerSample % two16 ∧
    fromLE (slice 40 4 (headerBytes h)) = dataSize % two32 ∧
    headerBytes h = ascii "RIFF" ++ le32 wavSize ++ ascii "WAVE" ++ ascii "fmt " ++ le32 16 ++
      le16 1 ++ le16 numChannels ++ le32 sampleRate ++ le32 byteRate ++ le16 blockAlign ++
      le16 bitsPerSample ++ ascii "data" ++ le32 dataSize := by
  intro h
  obtain ⟨h0, h4, h8, h12, h16, h20, h22, h24, h28, h32, h34, h36, h40⟩ := header_slices h
  refine ⟨headerBytes_length h, h0, h4, h8, h12, h16, h20, h22, h24, h28, h32, h34, h36, h40,
    ?_, ?_, ?_, ?_, ?_, ?_, ?_, ?_, ?_, ?_⟩
  · rw [h4]; exact fromLE_le32 _
  · rw [h16]; show fromLE (le32 16) = 16; decide
  · rw [h20]; show fromLE (le16 1) = 1; decide
  · rw [h22]; exact fromLE_le16 _
  · rw [h24]; exact fromLE_le32 _
  · rw [h28]; exact fromLE_le32 _
  · rw [h32]; exact fromLE_le16 _
  · rw [h34]; exact fromLE_le16 _
  · rw [h40]; exact fromLE_le32 _
  · rw [headerBytes_eq]; simp only [List.append_assoc]; rfl

/-- The byte accounting of a session as the code performs it, whatever each write
takes: bytesWritten grows on each append by two bytes per sample (modulo 2^32)
without reading what the write took, so the header stopRecording leaves has
dataSize = the total asked for modulo 2^32 and wavSize = (36 + that total) modulo
2^32, while the file holds after its header only the bytes the writes took.  The two
agree when every payload write is taken in full and the total is below 2^32 - 36. -/
theorem session_counts_requested (s : State) (k fuel hdrWritten now finalWritten : Nat)
    (polls : List Poll) (seekOk : Bool)
    (hfree : spiffsExists s (fileName (probe s.fileCounter k)) = false)
    (hfuel : k + 1 ≤ fuel)
    (hlen : ∀ p ∈ polls, p.samples.length ≤ BUFFER_SIZE) :
    ∃ s', recordSession fuel true hdrWritten now polls seekOk finalWritten s = some s' ∧
      s'.wavHeader.dataSize = (polls.map pollSize).sum % two32 ∧
      s'.wavHeader.wavSize = (36 + (polls.map pollSize).sum) % two32 ∧
      (44 ≤ hdrWritten → seekOk = true → 44 ≤ finalWritten →
        s'.disk s'.wavFileName = some (headerBytes s'.wavHeader ++ polls.flatMap pollBytes)) ∧
      ((∀ p ∈ polls, pollSize p ≤ p.written) → (polls.map pollSize).sum < two32 - 36 →
        s'.wavHeader.dataSize = (polls.flatMap pollBytes).length ∧
        s'.wavHeader.wavSize = 36 + s'.wavHeader.dataSize) ∧
      (∀ (t : State) (p : Poll), t.isRecording = true → p.samples.length ≤ BUFFER_SIZE →
        t.bytesWritten < two32 →
        (processAudio p.samples p.written p.now t).bytesWritten
          = (t.bytesWritten + pollSize p) % two32) := by
  obtain ⟨s', hs', _, _, h3, h4⟩ :=
    recordSession_result s k fuel hdrWritten now finalWritten polls seekOk hfree hfuel hlen
  have hds : s'.wavHeader.dataSize = (polls.map pollSize).sum % two32 := by
    rw [h3]; simp only [finalizeHeader]; exact Nat.mod_mod _ _
  have hws : s'.wavHeader.wavSize = (36 + (polls.map pollSize).sum) % two32 := by
    rw [h3]; simp only [finalizeHeader]; simp only [two32]; omega
  refine ⟨s', hs', hds, hws, h4, ?_, fun t p h1 h2 h3 => processAudio_bytesWritten p t h1 h2 h3⟩
  intro hfull hlt
  have hfull2 : ∀ p ∈ polls, 2 * p.samples.length ≤ p.written := hfull
  have e1 : (polls.map pollSize).sum % two32 = (polls.map pollSize).sum :=
    Nat.mod_eq_of_lt (by simp only [two32] at hlt ⊢; omega)
  have e2 : (36 + (polls.map pollSize).sum) % two32 = 36 + (polls.map pollSize).sum :=
    Nat.mod_eq_of_lt (by simp only [two32] at hlt ⊢; omega)
  rw [hds, hws, e1, e2, flatMap_pollBytes_full polls hfull2, samplesBytes_length,
    ← totalSamples_eq, sum_pollSize]
  exact ⟨rfl, rfl⟩

/-- A run with a short write and a failed write: 8 bytes asked for, 4 appended,
and a header that says dataSize = 8. -/
theorem session_counts_requested_witness :
    ∃ s', recordSession 1 true 44 0 [⟨[1, -1, 7], 4, 0⟩, ⟨[5], 0, 0⟩] true 44
        (initialState (fun _ => none)) = some s' ∧
      s'.wavHeader.dataSize = 8 ∧ s'.wavHeader.wavSize = 44 ∧
      s'.disk s'.wavFileName = some (headerBytes s'.wavHeader ++ [1, 0, 255, 255]) := by
  obtain ⟨s', h1, h2, h3, h4, _⟩ :=
    session_counts_requested (initialState (fun _ => none)) 0 1 44 0 44
      [⟨[1, -1, 7], 4, 0⟩, ⟨[5], 0, 0⟩] true (by decide) (by decide)
      (by
        intro p hp
        simp only [List.mem_cons, List.mem_singleton, List.not_mem_nil, or_false] at hp
        rcases hp with rfl | rfl <;> decide)
  refine ⟨s', h1, h2.trans (by decide), h3.trans (by decide), ?_⟩
  rw [h4 (by decide) rfl (by decide)]
  have e : ([⟨[1, -1, 7], 4, 0⟩, ⟨[5], 0, 0⟩] : List Poll).flatMap pollBytes
      = [1, 0, 255, 255] := by
    decide
  rw [e]

/-- C3 fails on the code: after startRecording, one processAudio call delivering one
sample whose write takes 0 bytes, and stopRecording, the file is 44 bytes long, the
header alone with 0 bytes of PCM data after it, while the header written says
dataSize = 2 and wavSize = 38: bytesWritten grew by the 2 bytes asked for, not by
the 0 bytes the write wrote. -/
theorem failed_write_is_counted :
    (recordSession 1 true 44 0 [⟨[1], 0, 0⟩] true 44 (initialState (fun _ => none))).map
        (fun s' => ((s'.disk s'.wavFileName).map List.length, s'.wavHeader.dataSize,
          s'.wavHeader.wavSize))
      = some (some 44, 2, 38) := by
  rfl

/-- C4 (amended): For every byte count n below 2^32 held in bytesWritten, the header update
of stopRecording yields dataSize = n and wavSize = (36 + n) modulo 2^32, which is
36 + n whenever n is below 2^32 - 36. -/
theorem finalize_sizes (seekOk : Bool) (written : Nat) (s : State) (n : Nat)
    (hrec : s.isRecording = true) (hn : s.bytesWritten = n) (hlt : n < two32) :
    (stopRecording seekOk written s).wavHeader.dataSize = n ∧
    (stopRecording seekOk written s).wavHeader.wavSize = (36 + n) % two32 ∧
    (n < two32 - 36 → (stopRecording seekOk written s).wavHeader.wavSize = 36 + n) ∧
    (finalizeHeader s.wavHeader n).dataSize = n ∧
    (finalizeHeader s.wavHeader n).wavSize = (36 + n) % two32 := by
  rw [stopRecording_wavHeader seekOk written s hrec, hn]
  simp only [finalizeHeader]
  simp only [two32] at hlt ⊢
  exact ⟨Nat.mod_eq_of_lt hlt, trivial, fun h => Nat.mod_eq_of_lt (by omega),
    Nat.mod_eq_of_lt hlt, trivial⟩

/-- C4 (amended), at n = 2048: dataSize = 2048 and wavSize = 2084. -/
theorem finalize_sizes_witness :
    (stopRecording true 44 { initialState (fun _ => none) with isRecording := true, bytesWritten := 2048 }).wavHeader.dataSize = 2048 ∧
    (stopRecording true 44 { initialState (fun _ => none) with isRecording := true, bytesWritten := 2048 }).wavHeader.wavSize = 2084 :=
  have h := finalize_sizes true 44
    { initialState (fun _ => none) with isRecording := true, bytesWritten := 2048 } 2048 rfl rfl
    (by decide)
  ⟨h.1, h.2.2.1 (by decide)⟩

/-- C4 fails as stated: with bytesWritten = 2^32 - 36, a value the counter can hold,
stopRecording leaves wavSize = 0, not 36 + bytesWritten. -/
theorem finalize_wavSize_wraps :
    let s : State := { initialState (fun _ => none) with isRecording := true, bytesWritten := 4294967260 }
    s.bytesWritten < two32 ∧
    (stopRecording true 44 s).wavHeader.dataSize = 4294967260 ∧
    (stopRecording true 44 s).wavHeader.wavSize = 0 ∧
    (stopRecording true 44 s).wavHeader.wavSize ≠ 36 + s.bytesWritten := by
  decide

/-- C5 (amended): For every format whose values fit the members of the header
(sampleRate and sampleRate * channels * (bitsPerSample / 8) below 2^32, channels,
bitsPerSample and channels * (bitsPerSample / 8) below 2^16) substituted for
SAMPLE_RATE, CHANNELS and BIT_DEPTH, initWAVHeader produces numChannels = channels,
sampleRate = sampleRate, bitsPerSample = bitsPerSample,
byteRate = sampleRate * channels * (bitsPerSample / 8),
blockAlign = channels * (bitsPerSample / 8), dataSize = 0 and wavSize = 36, whatever
the header held before; finalising it with 0 bytes keeps wavSize = 36 and
dataSize = 0.  As compiled (16000 Hz, 1 channel, 16 bits): byteRate = 32000 and
blockAlign = 2. -/
theorem init_fields (sampleRate channels bitsPerSample : Nat) (h : WAVHeader)
    (hsr : sampleRate < two32) (hch : channels < two16) (hbits : bitsPerSample < two16)
    (hbr : sampleRate * channels * (bitsPerSample / 8) < two32)
    (hba : channels * (bitsPerSample / 8) < two16) :
    let h1 := initWAVHeaderWith sampleRate channels bitsPerSample h
    h1.numChannels = channels ∧ h1.sampleRate = sampleRate ∧
    h1.bitsPerSample = bitsPerSample ∧
    h1.byteRate = sampleRate * channels * (bitsPerSample / 8) ∧
    h1.blockAlign = channels * (bitsPerSample / 8) ∧
    h1.dataSize = 0 ∧ h1.wavSize = 36 ∧
    (finalizeHeader h1 0).wavSize = 36 ∧ (finalizeHeader h1 0).dataSize = 0 ∧
    (initWAVHeader h).byteRate = 32000 ∧ (initWAVHeader h).blockAlign = 2 ∧
    (initWAVHeader h).numChannels = 1 ∧ (initWAVHeader h).sampleRate = 16000 ∧
    (initWAVHeader h).bitsPerSample = 16 := by
  simp only [initWAVHeaderWith, initWAVHeader, finalizeHeader, SAMPLE_RATE, CHANNELS, BIT_DEPTH]
  rw [Nat.mod_eq_of_lt hbits, Nat.mod_eq_of_lt hbr, Nat.mod_eq_of_lt hba, Nat.mod_eq_of_lt hch,
    Nat.mod_eq_of_lt hsr]
  simp [two32, two16]

/-- C5 (amended), at 44100 Hz, 2 channels, 24 bits: byteRate = 264600 and blockAlign = 6. -/
theorem init_fields_witness :
    (initWAVHeaderWith 44100 2 24 (initialState (fun _ => none)).wavHeader).byteRate = 264600 ∧
    (initWAVHeaderWith 44100 2 24 (initialState (fun _ => none)).wavHeader).blockAlign = 6 :=
  have h := init_fields 44100 2 24 (initialState (fun _ => none)).wavHeader
    (by decide) (by decide) (by decide) (by decide) (by decide)
  ⟨h.2.2.2.1, h.2.2.2.2.1⟩

/-- C5 fails as stated: with 65536 channels (16000 Hz, 16 bits) numChannels and blockAlign
are stored as 0, and with sampleRate 4294967295, 2 channels, 16 bits byteRate is
stored as 4294967292. -/
theorem init_truncates :
    (initWAVHeaderWith 16000 65536 16 (initialState (fun _ => none)).wavHeader).numChannels = 0 ∧
    (initWAVHeaderWith 16000 65536 16 (initialState (fun _ => none)).wavHeader).blockAlign = 0 ∧
    (initWAVHeaderWith 4294967295 2 16 (initialState (fun _ => none)).wavHeader).byteRate
      = 4294967292 := by
  decide

/-- C6 (amended): For every store and every counter value c >= 0, when n >= c is the least
counter (n at most 2^31 - 1, the largest int) whose name does not exist,
getNextFileName returns with enough fuel, wavFileName is the name of n, that path does
not exist at that moment, the store is unchanged, and fileCounter is left at n + 1
converted to int, which is n + 1 whenever n is below 2^31 - 1. -/
theorem getNextFileName_returns_least (s : State) (n : Int) (fuel : Nat)
    (h0 : 0 ≤ s.fileCounter) (hcn : s.fileCounter ≤ n) (hn : n ≤ 2147483647)
    (hfree : spiffsExists s (fileName n) = false)
    (hbusy : ∀ j : Int, s.fileCounter ≤ j → j < n → spiffsExists s (fileName j) = true)
    (hfuel : (n - s.fileCounter).toNat + 1 ≤ fuel) :
    ∃ s', getNextFileName fuel s = some s' ∧
      s'.wavFileName = fileName n ∧
      spiffsExists s' s'.wavFileName = false ∧
      s'.fileCounter = wrapInt32 (n + 1) ∧
      (n < 2147483647 → s'.fileCounter = n + 1) ∧
      s'.disk = s.disk := by
  have hk : s.fileCounter + (((n - s.fileCounter).toNat : Nat) : Int) = n := by
    rw [Int.toNat_of_nonneg (by omega)]; ring
  have hnone : s.disk (fileName n) = none := by
    simpa [spiffsExists] using hfree
  obtain ⟨tr, htr, _⟩ := getNextFileName_least (n - s.fileCounter).toNat s fuel (by omega)
    (by rw [hk]; exact hn) (by rw [hk]; exact hnone)
    (by
      intro j hj
      have := hbusy (s.fileCounter + j) (by omega) (by omega)
      intro hcontra
      simp [spiffsExists, hcontra] at this)
    hfuel
  rw [hk] at htr
  refine ⟨_, htr, rfl, ?_, rfl, ?_, rfl⟩
  · simpa [spiffsExists] using hnone
  · intro hlt
    exact wrapInt32_of_range _ (by omega) (by omega)

/-- C6, the scenario of the specification: from counter 0, with recording_000.wav and
recording_001.wav in the store, the first call returns recording_002.wav and leaves
the counter at 3. -/
theorem getNextFileName_returns_least_witness :
    ∃ s', getNextFileName 3 (initialState twoRecordings) = some s' ∧
      s'.wavFileName = "/recording_002.wav" ∧
      spiffsExists s' s'.wavFileName = false ∧
      s'.fileCounter = 3 :=
  have h := getNextFileName_returns_least (initialState twoRecordings) 2 3
    (by decide) (by decide) (by decide) (by decide)
    (by
      intro j h1 h2
      have h3 : 0 ≤ j := h1
      interval_cases j <;> decide)
    (by decide)
  h.elim fun s' hs => ⟨s', hs.1, hs.2.1, hs.2.2.1, hs.2.2.2.2.1 (by decide)⟩

/-- C6 fails as stated: from counter 2^31 - 1 over an empty store the call returns the
name of 2^31 - 1 and leaves fileCounter at -2^31, not at n + 1. -/
theorem getNextFileName_counter_overflows :
    ∃ s', getNextFileName 1 { initialState (fun _ => none) with fileCounter := 2147483647 }
        = some s' ∧
      s'.wavFileName = fileName 2147483647 ∧
      s'.wavFileName = "/recording_2147483647.wav" ∧
      s'.fileCounter = -2147483648 ∧
      s'.fileCounter ≠ 2147483647 + 1 :=
  ⟨_, getNextFileName_free 0 { initialState (fun _ => none) with fileCounter := 2147483647 } rfl,
    rfl, by decide, by decide, by decide⟩

/-- C7 (amended): For every m up to 2^32, m successive calls of getNextFileName from counter
0 over a store with no files, whether or not each returned file is created afterwards,
all return, and return m pairwise distinct paths, each non-existing when it is
returned; call number j returns the name of j converted to int, which is the name of j
itself for the first 2^31 calls, so the numeral grows past 3 digits and is neither
wrapped nor truncated. -/
theorem getNextFileNames_distinct (creates : List Bool) (s : State) (fuel : Nat)
    (hc : s.fileCounter = 0) (hdisk : ∀ p, spiffsExists s p = false)
    (hm : creates.length ≤ 4294967296) (hfuel : 1 ≤ fuel) :
    ∃ names s', getNextFileNames creates fuel s = some (names, s') ∧
      names.length = creates.length ∧
      (names.map Prod.fst).Nodup ∧
      (∀ x ∈ names, x.2 = false) ∧
      names = (List.range creates.length).map (fun j : Nat => (fileName (wrapInt32 (j : Int)), false)) ∧
      (creates.length ≤ 2147483648 →
        names = (List.range creates.length).map (fun j : Nat => (fileName (j : Int), false))) := by
  obtain ⟨f, rfl⟩ : ∃ f, fuel = f + 1 := ⟨fuel - 1, by omega⟩
  have hnone : ∀ p, s.disk p = none := by
    intro p
    have := hdisk p
    simpa [spiffsExists] using this
  obtain ⟨s', hs'⟩ := getNextFileNames_fresh creates 0 s f (by rw [hc]; rfl)
    (by intro p hp; exact absurd (hnone p) hp) (by omega)
  refine ⟨_, s', hs', by simp, ?_, ?_, ?_, ?_⟩
  · rw [List.map_map]
    refine List.Nodup.map_on ?_ (List.nodup_range' 0 creates.length)
    intro a ha b hb hab
    simp only [List.mem_range'_1] at ha hb
    simp only [Function.comp, nthName] at hab
    exact wrapInt32_inj_of_lt a b (by omega) (by omega) (fileName_injective hab)
  · intro x hx
    obtain ⟨j, _, rfl⟩ := List.mem_map.mp hx
    rfl
  · rw [List.range_eq_range']; rfl
  · intro hle
    rw [List.range_eq_range']
    apply List.map_congr_left
    intro j hj
    simp only [List.mem_range'_1] at hj
    simp only [nthName]
    rw [wrapInt32_of_range _ (by omega) (by omega)]

/-- C7 (amended), on three calls: recording_000.wav, recording_001.wav and
recording_002.wav, none existing when returned. -/
theorem getNextFileNames_distinct_witness :
    ∃ names s', getNextFileNames [true, false, true] 1 (initialState (fun _ => none))
        = some (names, s') ∧
      names = [("/recording_000.wav", false), ("/recording_001.wav", false),
        ("/recording_002.wav", false)] :=
  have h := getNextFileNames_distinct [true, false, true] (initialState (fun _ => none)) 1
    rfl (fun _ => rfl) (by decide) (by decide)
  h.elim fun names h1 => h1.elim fun s' hs =>
    ⟨names, s', hs.1, hs.2.2.2.2.1.trans (by decide)⟩

/-- C7 fails as stated: 2^32 + 1 successive calls over an empty store in which nothing is
created return a list of paths with a repetition, the counter having wrapped. -/
theorem getNextFileNames_repeat_after_wrap :
    ∃ names s', getNextFileNames (List.replicate 4294967297 false) 1
        (initialState (fun _ => none)) = some (names, s') ∧
      ¬ (names.map Prod.fst).Nodup := by
  obtain ⟨s', hs'⟩ := getNextFileNames_empty 4294967297 0 (initialState (fun _ => none)) 0
    rfl (fun _ => rfl)
  refine ⟨_, s', hs', ?_⟩
  intro hnd
  rw [List.map_map] at hnd
  have h := List.inj_on_of_nodup_map hnd (x := 0) (y := 4294967296)
    (by rw [List.mem_range'_1]; omega) (by rw [List.mem_range'_1]; omega)
    (by simp only [Function.comp, nthName]; rfl)
  omega

/-- C8: Whenever the file-name search of startRecording finds a free name and the open
fails, startRecording returns with isRecording, bytesWritten, the header, the start
time and the store unchanged and the file closed, and the calls it made are existence
checks followed by the failed open: no microphone start and no file write.  When the
open succeeds the microphone start comes last, after the successful open and the
header write. -/
theorem startRecording_open_failure (s : State) (k fuel written now : Nat)
    (hfree : spiffsExists s (fileName (probe s.fileCounter k)) = false)
    (hfuel : k + 1 ≤ fuel) :
    (∃ s', startRecording fuel false written now s = some s' ∧
      s'.isRecording = s.isRecording ∧
      s'.bytesWritten = s.bytesWritten ∧ s'.wavHeader = s.wavHeader ∧
      s'.recordStartTime = s.recordStartTime ∧
      s'.disk = s.disk ∧ s'.wavFile = none ∧
      ∃ tr, s'.trace = s.trace ++ tr ++ [Event.fsOpen s'.wavFileName false] ∧
        (∀ e ∈ tr, e.isExists = true) ∧
        Event.micBegin ∉ tr ++ [Event.fsOpen s'.wavFileName false] ∧
        ∀ bytes n, Event.fileWrite bytes n ∉ tr ++ [Event.fsOpen s'.wavFileName false]) ∧
    (∃ s1 tr, startRecording fuel true written now s = some s1 ∧
      (∀ e ∈ tr, e.isExists = true) ∧
      s1.trace = s.trace ++ tr ++ [Event.fsOpen s1.wavFileName true,
        Event.fileWrite (headerBytes s1.wavHeader)
          ((headerBytes s1.wavHeader).take written).length,
        Event.micBegin]) := by
  have hnone : s.disk (fileName (probe s.fileCounter k)) = none := by
    simpa [spiffsExists] using hfree
  obtain ⟨s0, hs0⟩ := getNextFileName_terminates k s fuel hnone hfuel
  obtain ⟨_, a2, a3, a4, a5, _, _, a8, _, tr, htr, hex⟩ := getNextFileName_frame fuel s s0 hs0
  refine ⟨⟨_, startRecording_closed fuel written now s s0 hs0, a3, a5, a4, a2, a8, rfl, tr,
    ?_, hex, ?_, ?_⟩, ?_⟩
  · simp only [htr]
  · intro hmem
    rcases List.mem_append.mp hmem with h | h
    · have := hex _ h
      simp [Event.isExists] at this
    · simp at h
  · intro bytes n hmem
    rcases List.mem_append.mp hmem with h | h
    · have := hex _ h
      simp [Event.isExists] at this
    · simp at h
  · obtain ⟨s1, hs1, _, b2, b3, _, _, _, _, b8⟩ :=
      startRecording_opened fuel written now s s0 hs0
    refine ⟨s1, tr, hs1, hex, ?_⟩
    rw [b8, b2, b3, htr]

/-- C8, from the initial state over a store with two recordings: the calls made are three
existence checks and the failed open. -/
theorem startRecording_open_failure_witness :
    ∃ s', startRecording 3 false 44 1000 (initialState twoRecordings) = some s' ∧
      s'.isRecording = false ∧ s'.wavFile = none ∧
      s'.trace = [Event.fsExists "/recording_000.wav" true,
        Event.fsExists "/recording_001.wav" true, Event.fsExists "/recording_002.wav" false,
        Event.fsOpen "/recording_002.wav" false] :=
  have h := startRecording_open_failure (initialState twoRecordings) 2 3 44 1000
    (by decide) (by decide)
  h.1.elim fun s' hs => ⟨s', hs.1, hs.2.1, hs.2.2.2.2.2.2.1, by
    have e := hs.1
    have e2 : startRecording 3 false 44 1000 (initialState twoRecordings) = some _ := rfl
    rw [e2] at e
    cases e
    decide⟩

/-- C9: In every state with isRecording false, stopRecording and processAudio return the
state unchanged, the store and the record of collaborator calls included, so no byte is
appended and no file or microphone call is made; and from any state, calling
stopRecording a second time changes nothing. -/
theorem idle_noop (s t : State) (seekOk seekOk2 : Bool) (written written2 now : Nat)
    (samples : List Int) (h : s.isRecording = false) :
    stopRecording seekOk written s = s ∧
    processAudio samples written now s = s ∧
    stopRecording seekOk2 written2 (stopRecording seekOk written t)
      = stopRecording seekOk written t := by
  refine ⟨by simp [stopRecording, h], by simp [processAudio, h], ?_⟩
  have hidle : (stopRecording seekOk written t).isRecording = false := by
    cases ht : t.isRecording
    · simp [stopRecording, ht]
    · simp only [stopRecording, ht, if_true, wavFile_close, wavFile_write, wavFile_seek]
      cases hf : t.wavFile <;> simp
  generalize stopRecording seekOk written t = u at hidle ⊢
  simp [stopRecording, hidle]

/-- C9, at the initial state. -/
theorem idle_noop_witness :
    stopRecording true 44 (initialState (fun _ => none)) = initialState (fun _ => none) ∧
    processAudio [1, 2, 3] 6 0 (initialState (fun _ => none)) = initialState (fun _ => none) :=
  have h := idle_noop (initialState (fun _ => none)) (initialState (fun _ => none))
    true true 44 44 0 [1, 2, 3] rfl
  ⟨h.1, h.2.1⟩

/-- C10 fails on the code: for the frame holding the single sample -32768 the metering loop
leaves maxLevel = 0 while the peak absolute value is 32768, and for the frame
-32768, 5 it leaves 5. -/
theorem meter_misses_min_sample :
    meterLevel 1 [-32768] = 0 ∧ peakAbs [-32768] = 32768 ∧
    meterLevel 2 [-32768, 5] = 5 ∧ peakAbs [-32768, 5] = 32768 := by
  decide

end M5DialPDM
